import Mathlib

/-!
Verification of `src/transcribe/voice_to_cursor.py`.

The program is shallowly embedded: wall-clock times and stability scores are
rationals (the Python floats in play are decimal literals and comparisons),
text is `List Char`, and each stateful loop becomes an explicit fold.  Python
`str.strip`/`str.lstrip` are modelled over the ASCII whitespace characters,
and `str.lower` as ASCII lowercasing, which is exact for the inputs the
claims are about.
-/

attribute [local semireducible] Rat.add Rat.sub Rat.mul Rat.inv

namespace VoiceToCursor

/-- Whitespace as stripped by Python `str.strip` (ASCII range). -/
def pyIsSpace (c : Char) : Bool :=
  c = ' ' || c = '\t' || c = '\n' || c = '\r' || c = '\x0b' || c = '\x0c'

/-- Python `str.lower`, character-wise, on the ASCII range. -/
def pyLower (c : Char) : Char :=
  if 65 ≤ c.toNat ∧ c.toNat ≤ 90 then Char.ofNat (c.toNat + 32) else c

/-- `s.lower()` on a whole string. -/
def lowerStr (s : List Char) : List Char := s.map pyLower

/-- Python `str.lstrip()`. -/
def lstripL (s : List Char) : List Char := s.dropWhile pyIsSpace

/-- Python trailing-whitespace removal (the right half of `str.strip()`). -/
def rstripL (s : List Char) : List Char := s.rdropWhile pyIsSpace

/-- Python `str.strip()`: both ends. -/
def pyStrip (s : List Char) : List Char := lstripL (rstripL s)

/-- Source line 15: `TYPE_INTERVAL = 1.0`. -/
def TYPE_INTERVAL : ℚ := 1

/-- Source line 16: `TYPE_STABILITY_THRESHOLD = 0.7`. -/
def TYPE_STABILITY_THRESHOLD : ℚ := 7/10

/-- Source line 17: `SILENCE_THRESHOLD = 3.0`. -/
def SILENCE_THRESHOLD : ℚ := 3

/-- Source lines 23-27: dataclass `Transcript`. -/
structure Transcript where
  text : List Char
  stability : ℚ
  is_final : Bool
deriving DecidableEq

/-- `Transcript()` with the dataclass defaults (`""`, `0.0`, `False`). -/
def emptyTranscript : Transcript := ⟨[], 0, false⟩

/-- Source lines 29-32: dataclass `SpeechResult`. -/
structure SpeechResult where
  timestamp : ℚ
  transcript : Transcript
deriving DecidableEq

/-- Source lines 99-102: dataclass `TypeState`. -/
structure TypeState where
  last_type_time : ℚ
  last_typed_text : List Char
deriving DecidableEq

/-- `TypeState(last_type_time=now)`: fresh state, empty baseline (lines 105, 148). -/
def freshTypeState (now : ℚ) : TypeState := ⟨now, []⟩

/-- Source lines 127-134: the loop computing `common_prefix_len`, comparing the
candidate text and the previously typed text character by character after
`.lower()`, stopping at the first mismatch or at the shorter length. -/
def commonPrefixLen : List Char → List Char → ℕ
  | a :: as, b :: bs => if pyLower a = pyLower b then commonPrefixLen as bs + 1 else 0
  | _, _ => 0

/-- Source lines 114-120: `should_type = is_final or (time - last_type_time >=
TYPE_INTERVAL and stability > TYPE_STABILITY_THRESHOLD)`. -/
def should_type (now : ℚ) (state : TypeState) (t : Transcript) : Bool :=
  t.is_final ||
    (decide (now - state.last_type_time ≥ TYPE_INTERVAL) &&
      decide (t.stability > TYPE_STABILITY_THRESHOLD))

/-- The observable effect of one iteration of the `handle_results` loop body:
the updated `TypeState`, the updated global `last_speech_time`, the string
passed to `keyboard.write` (if any), and whether the `should_type` branch was
taken. -/
structure StepOut where
  state : TypeState
  lastSpeech : ℚ
  injected : Option (List Char)
  didCommit : Bool
deriving DecidableEq

/-- Source lines 111-148: the body of the `for result in results` loop of
`handle_results`, for one result received at wall-clock time `now`, with the
global `last_speech_time` currently `lastSpeech`.  All `time.time()` calls
inside one iteration are identified with `now`. -/
def handleResult (now : ℚ) (lastSpeech : ℚ) (state : TypeState) (t : Transcript) : StepOut :=
  if t.text = [] then ⟨state, lastSpeech, none, false⟩
  else if should_type now state t then
    let lastSpeech1 := now
    let current_text := pyStrip t.text
    let text_to_type := lstripL (current_text.drop (commonPrefixLen current_text state.last_typed_text))
    let out1 : TypeState × Option (List Char) :=
      if text_to_type = [] then (state, none)
      else (⟨now, current_text⟩, some (text_to_type ++ [' ']))
    let state2 := if t.is_final then freshTypeState now else out1.1
    ⟨state2, lastSpeech1, out1.2, true⟩
  else
    let state2 := if t.is_final then freshTypeState now else state
    ⟨state2, lastSpeech, none, false⟩

/-- Accumulated loop state of `handle_results`: the engine state, the global
`last_speech_time`, and the list of strings injected so far, oldest first. -/
structure LoopState where
  state : TypeState
  lastSpeech : ℚ
  injections : List (List Char)
deriving DecidableEq

/-- Source lines 107-148: the `for result in results` loop, ignoring the
shutdown flag (for runs during which it is never set). -/
def runResults : LoopState → List SpeechResult → LoopState
  | ls, [] => ls
  | ls, r :: rest =>
    let o := handleResult r.timestamp ls.lastSpeech ls.state r.transcript
    runResults ⟨o.state, o.lastSpeech, ls.injections ++ o.injected.toList⟩ rest

/-- Source lines 107-148 with the shutdown flag made explicit: each iteration
carries the value `exit_event.is_set()` read at the top of the loop (line 108),
and a set flag breaks out of the loop. -/
def runResultsExit : LoopState → List (Bool × SpeechResult) → LoopState
  | ls, [] => ls
  | ls, (ex, r) :: rest =>
    if ex then ls
    else
      let o := handleResult r.timestamp ls.lastSpeech ls.state r.transcript
      runResultsExit ⟨o.state, o.lastSpeech, ls.injections ++ o.injected.toList⟩ rest

/-- One alternative of a backend recognition result (only its transcript text
is read, line 88). -/
structure RecognitionAlternative where
  transcript : List Char
deriving DecidableEq

/-- One backend recognition result: alternatives, `is_final`, `stability`. -/
structure RecognitionResult where
  alternatives : List RecognitionAlternative
  is_final : Bool
  stability : ℚ
deriving DecidableEq

/-- One inbound backend response: zero or more results. -/
structure StreamingResponse where
  results : List RecognitionResult
deriving DecidableEq

/-- Source lines 82-97: the per-response body of `process_responses`, turning
one inbound response received at `timestamp` into exactly one `SpeechResult`. -/
def normalizeResponse (timestamp : ℚ) (resp : StreamingResponse) : SpeechResult :=
  match resp.results with
  | [] => ⟨timestamp, emptyTranscript⟩
  | result :: _ =>
    match result.alternatives with
    | [] => ⟨timestamp, emptyTranscript⟩
    | alt :: _ => ⟨timestamp, ⟨alt.transcript, result.stability, result.is_final⟩⟩

/-- The fields of `MicrophoneStream` read by `_fill_buffer`: the `_closed`
flag and the `_buff` list.  Frames are opaque, modelled as naturals. -/
structure MicState where
  closed : Bool
  buff : List ℕ
deriving DecidableEq

/-- Source lines 61-64: `_fill_buffer` appends unless the stream is closed;
it does not consult the shutdown flag. -/
def fill_buffer (s : MicState) (in_data : ℕ) : MicState :=
  if s.closed then s else ⟨s.closed, s.buff ++ [in_data]⟩

/-- The shared state visible to the capture callback and the shutdown flag. -/
structure SysState where
  mic : MicState
  exitSet : Bool
deriving DecidableEq

/-- Events of the concurrent system that touch the shared state: a capture
callback delivering a frame, setting the shutdown flag (monitor, signal
handler, or error path), and closing the stream (`__exit__`). -/
inductive SysEvent where
  | fill (d : ℕ)
  | setExit
  | closeMic
deriving DecidableEq

/-- Effect of one event on the shared state, following the source: `fill` runs
`_fill_buffer` (guarded only by `_closed`), `setExit` runs `exit_event.set()`,
`closeMic` marks the stream closed. -/
def sysStep (s : SysState) (e : SysEvent) : SysState :=
  match e with
  | .fill d => ⟨fill_buffer s.mic d, s.exitSet⟩
  | .setExit => ⟨s.mic, true⟩
  | .closeMic => ⟨⟨true, s.mic.buff⟩, s.exitSet⟩

/-- Run a sequence of events. -/
def sysRun (s : SysState) (es : List SysEvent) : SysState := es.foldl sysStep s

/-- State right after `MicrophoneStream.__init__` (stream open, buffer empty)
with the shutdown flag clear. -/
def sysInit : SysState := ⟨⟨false, []⟩, false⟩

/-- Source line 160: the comparison made by each poll of `monitor_activity`:
`time.time() - last_speech_time > SILENCE_THRESHOLD`. -/
def monitorCheck (now : ℚ) (last_speech_time : ℚ) : Bool :=
  decide (now - last_speech_time > SILENCE_THRESHOLD)

/-- Wall-clock time of the k-th poll of `monitor_activity` when polling starts
at `start` and each iteration sleeps 0.3 s (line 164). -/
def pollTime (start : ℚ) (k : ℕ) : ℚ := start + (3/10) * k

/-- The newly appeared suffix of each candidate in a sequence of stripped
candidate texts, relative to the previous one: the characters past the length
of the previous candidate, with leading whitespace removed.  This is the
spec's description of what an increment is. -/
def newSuffixes : List Char → List (List Char) → List (List Char)
  | _, [] => []
  | base, t :: ts => lstripL (t.drop base.length) :: newSuffixes t ts

/-- `b` extends `a` as a case-insensitive strict prefix-extension: lowercased,
`a` is a proper prefix of `b`. -/
def ciExtends (a b : List Char) : Prop :=
  lowerStr a = (lowerStr b).take a.length ∧ a.length < b.length

instance (a b : List Char) : Decidable (ciExtends a b) :=
  inferInstanceAs (Decidable (_ ∧ _))

/-- Erase every whitespace character (used to compare injected output with the
final candidate modulo the spacing the engine normalizes). -/
def stripAllWS (s : List Char) : List Char := s.filter (fun c => !pyIsSpace c)

/-! ### Facts about the string primitives -/

theorem pyStrip_nil : pyStrip [] = [] := rfl

theorem ne_nil_of_pyStrip_ne_nil {s : List Char} (h : pyStrip s ≠ []) : s ≠ [] := by
  intro hs
  exact h (by rw [hs]; rfl)

theorem lstripL_pyStrip (s : List Char) : lstripL (pyStrip s) = pyStrip s :=
  List.dropWhile_idempotent _ _

theorem rdropWhile_append_all {p : Char → Bool} {w : List Char} (hw : ∀ c ∈ w, p c = true) :
    ∀ l : List Char, (l ++ w).rdropWhile p = l.rdropWhile p := by
  induction w using List.reverseRecOn with
  | nil => simp
  | append_singleton ws a ih =>
    intro l
    have ha : p a = true := hw a (by simp)
    rw [← List.append_assoc, List.rdropWhile_concat_pos _ _ a ha]
    exact ih (fun c hc => hw c (by simp [hc])) l

theorem length_rdropWhile_le {p : Char → Bool} {l : List Char} :
    (l.rdropWhile p).length ≤ l.length :=
  (List.rdropWhile_prefix p l).length_le

theorem rdropWhile_append_rtakeWhile (p : Char → Bool) (l : List Char) :
    l.rdropWhile p ++ l.rtakeWhile p = l := by
  unfold List.rdropWhile List.rtakeWhile
  rw [← List.reverse_append, List.takeWhile_append_dropWhile, List.reverse_reverse]

theorem rstripL_lstripL {l : List Char} (h : rstripL l = l) :
    rstripL (lstripL l) = lstripL l := by
  have hdec := rdropWhile_append_rtakeWhile pyIsSpace (lstripL l)
  have hl : l.takeWhile pyIsSpace ++ lstripL l = l :=
    List.takeWhile_append_dropWhile pyIsSpace l
  have hall : ∀ c ∈ (lstripL l).rtakeWhile pyIsSpace, pyIsSpace c = true :=
    fun c hc => List.mem_rtakeWhile_imp hc
  have h2 : rstripL l =
      rstripL (l.takeWhile pyIsSpace ++ (lstripL l).rdropWhile pyIsSpace) := by
    conv_lhs => rw [← hl, ← hdec]
    rw [← List.append_assoc]
    exact rdropWhile_append_all hall _
  have hlen1 : l.length ≤
      (l.takeWhile pyIsSpace ++ (lstripL l).rdropWhile pyIsSpace).length := by
    conv_lhs => rw [← h, h2]
    exact length_rdropWhile_le
  have hlen2 : (l.takeWhile pyIsSpace).length + (lstripL l).length = l.length := by
    rw [← List.length_append, hl]
  have hlen3 : ((lstripL l).rdropWhile pyIsSpace).length +
      ((lstripL l).rtakeWhile pyIsSpace).length = (lstripL l).length := by
    rw [← List.length_append, hdec]
  rw [List.length_append] at hlen1
  have hz : ((lstripL l).rtakeWhile pyIsSpace).length = 0 := by omega
  have hrtw : (lstripL l).rtakeWhile pyIsSpace = [] := List.length_eq_zero.mp hz
  rw [hrtw, List.append_nil] at hdec
  exact hdec

theorem rstripL_pyStrip (s : List Char) : rstripL (pyStrip s) = pyStrip s :=
  rstripL_lstripL (List.rdropWhile_idempotent _ _)

theorem lstripL_drop_ne_nil {x : List Char} (hx : rstripL x = x) {k : ℕ}
    (hd : x.drop k ≠ []) : lstripL (x.drop k) ≠ [] := by
  intro hnil
  have hall : ∀ c ∈ x.drop k, pyIsSpace c = true :=
    fun c hc => List.dropWhile_eq_nil_iff.mp hnil c hc
  have hx2 : rstripL (x.take k) = rstripL x := by
    conv_rhs => rw [← List.take_append_drop k x]
    exact (rdropWhile_append_all hall _).symm
  have h1 : x.length ≤ (x.take k).length := by
    conv_lhs => rw [← hx, ← hx2]
    exact length_rdropWhile_le
  have h2 : (x.take k).length + (x.drop k).length = x.length := by
    rw [← List.length_append, List.take_append_drop]
  have h3 : 0 < (x.drop k).length := List.length_pos.mpr hd
  omega

theorem pyLower_space {c : Char} (h : pyIsSpace c = true) : pyLower c = c := by
  simp only [pyIsSpace, Bool.or_eq_true, decide_eq_true_eq] at h
  rcases h with ((((h | h) | h) | h) | h) | h <;> subst h <;> decide

theorem commonPrefixLen_nil_right (a : List Char) : commonPrefixLen a [] = 0 := by
  cases a <;> rfl

theorem commonPrefixLen_left : ∀ a b : List Char,
    lowerStr a = (lowerStr b).take a.length → a.length ≤ b.length →
    commonPrefixLen a b = a.length := by
  intro a
  induction a with
  | nil => intro b _ _; cases b <;> rfl
  | cons x xs ih =>
    intro b h hlen
    cases b with
    | nil => simp at hlen
    | cons y ys =>
      simp only [lowerStr, List.map_cons, List.length_cons, List.take_succ_cons,
        List.cons.injEq] at h
      unfold commonPrefixLen
      rw [if_pos h.1]
      have hrec := ih ys (by simpa [lowerStr] using h.2) (by simpa using hlen)
      simp [hrec]

theorem commonPrefixLen_right : ∀ b a : List Char,
    lowerStr b = (lowerStr a).take b.length → b.length ≤ a.length →
    commonPrefixLen a b = b.length := by
  intro b
  induction b with
  | nil => intro a _ _; exact commonPrefixLen_nil_right a
  | cons y ys ih =>
    intro a h hlen
    cases a with
    | nil => simp at hlen
    | cons x xs =>
      simp only [lowerStr, List.map_cons, List.length_cons, List.take_succ_cons,
        List.cons.injEq] at h
      unfold commonPrefixLen
      rw [if_pos h.1.symm]
      have hrec := ih xs (by simpa [lowerStr] using h.2) (by simpa using hlen)
      simp [hrec]

/-! ### Characterizations of one iteration of the typing loop -/

theorem handleResult_skip (now ls : ℚ) (st : TypeState) (t : Transcript)
    (h : t.text = []) : handleResult now ls st t = ⟨st, ls, none, false⟩ := by
  unfold handleResult
  rw [if_pos h]

theorem handleResult_nocommit (now ls : ℚ) (st : TypeState) (t : Transcript)
    (htext : t.text ≠ []) (hs : should_type now st t = false) :
    handleResult now ls st t = ⟨st, ls, none, false⟩ := by
  have hf : t.is_final = false := by
    rcases hb : t.is_final with _ | _
    · rfl
    · exact absurd hs (by simp [should_type, hb])
  simp [handleResult, htext, hs, hf]

theorem handleResult_commit (now ls : ℚ) (st : TypeState) (t : Transcript)
    (htext : t.text ≠ []) (hs : should_type now st t = true) :
    handleResult now ls st t =
      if lstripL ((pyStrip t.text).drop
          (commonPrefixLen (pyStrip t.text) st.last_typed_text)) = []
      then ⟨if t.is_final then freshTypeState now else st, now, none, true⟩
      else ⟨if t.is_final then freshTypeState now else ⟨now, pyStrip t.text⟩, now,
            some (lstripL ((pyStrip t.text).drop
              (commonPrefixLen (pyStrip t.text) st.last_typed_text)) ++ [' ']), true⟩ := by
  simp only [handleResult, htext, hs, if_false, if_true]
  split <;> split <;> simp_all

/-! ### Claim C4 -/

/-- Claim C4: for every non-empty hypothesis, the commit decision taken by
`handle_results` equals exactly `isFinal OR (elapsed ≥ 1.0 AND stability >
0.7)` (the constants being `TYPE_INTERVAL = 1.0` and `STABILITY_THRESHOLD =
0.7`), and in particular every final hypothesis is committed regardless of
elapsed time and stability. -/
theorem claim_C4_commit_decision (now ls : ℚ) (st : TypeState) (t : Transcript)
    (htext : t.text ≠ []) :
    ((handleResult now ls st t).didCommit = true ↔
      (t.is_final = true ∨ (1 ≤ now - st.last_type_time ∧ (7 : ℚ)/10 < t.stability))) ∧
    (t.is_final = true → (handleResult now ls st t).didCommit = true) := by
  have hd : (handleResult now ls st t).didCommit = should_type now st t := by
    rcases hb : should_type now st t with _ | _
    · rw [handleResult_nocommit now ls st t htext hb]
    · rw [handleResult_commit now ls st t htext hb]
      split <;> rfl
  constructor
  · rw [hd]
    simp [should_type, TYPE_INTERVAL, TYPE_STABILITY_THRESHOLD, ge_iff_le, sub_nonneg]
  · intro hf
    rw [hd]
    simp [should_type, hf]

/-- Witness for C4: a final hypothesis with stability 0 and zero elapsed time
is committed. -/
theorem claim_C4_witness :
    (handleResult 0 0 ⟨0, []⟩ ⟨[' ', 'a'], 0, true⟩).didCommit = true :=
  (claim_C4_commit_decision 0 0 ⟨0, []⟩ ⟨[' ', 'a'], 0, true⟩ (by decide)).2 rfl

/-! ### Claim C10 -/

/-- Claim C10: a result whose hypothesis text is empty leaves the typing state
completely unchanged and injects nothing; in particular the end-of-utterance
reset is not reached even when `is_final` is true, because the whole body of
the iteration is guarded by the non-empty-text test. -/
theorem claim_C10_empty_text_noop (now ls : ℚ) (st : TypeState) (t : Transcript)
    (h : t.text = []) : handleResult now ls st t = ⟨st, ls, none, false⟩ :=
  handleResult_skip now ls st t h

/-- Witness for C10: an empty-text final hypothesis does not reset the state. -/
theorem claim_C10_witness :
    handleResult 1 2 ⟨3, ['a', 'b']⟩ ⟨[], 1/2, true⟩ = ⟨⟨3, ['a', 'b']⟩, 2, none, false⟩ :=
  claim_C10_empty_text_noop 1 2 ⟨3, ['a', 'b']⟩ ⟨[], 1/2, true⟩ rfl

/-! ### Claim C9 -/

/-- Claim C9: every inbound backend response normalizes to exactly one
`SpeechResult`: with no results, or no alternatives in the first result, it is
the empty hypothesis (empty text, stability 0, non-final), which downstream
skips as a no-op rather than treating as an error; otherwise it carries the
first result's first alternative's text, its `is_final` flag and its
stability. -/
theorem claim_C9_normalize (ts now ls : ℚ) (resp : StreamingResponse) (st : TypeState) :
    (resp.results = [] → normalizeResponse ts resp = ⟨ts, emptyTranscript⟩) ∧
    (∀ r rest, resp.results = r :: rest → r.alternatives = [] →
      normalizeResponse ts resp = ⟨ts, emptyTranscript⟩) ∧
    (∀ r rest alt arest, resp.results = r :: rest → r.alternatives = alt :: arest →
      normalizeResponse ts resp = ⟨ts, ⟨alt.transcript, r.stability, r.is_final⟩⟩) ∧
    handleResult now ls st emptyTranscript = ⟨st, ls, none, false⟩ := by
  refine ⟨fun h => ?_, fun r rest h ha => ?_, fun r rest alt arest h ha => ?_, ?_⟩
  · simp [normalizeResponse, h]
  · simp [normalizeResponse, h, ha]
  · simp [normalizeResponse, h, ha]
  · exact handleResult_skip now ls st emptyTranscript rfl

/-- Witness for C9: a response with no results yields the empty-hypothesis
tick, and feeding that tick to the typing loop is a no-op. -/
theorem claim_C9_witness :
    normalizeResponse 0 ⟨[]⟩ = ⟨0, emptyTranscript⟩ ∧
    handleResult 0 0 ⟨0, []⟩ emptyTranscript = ⟨⟨0, []⟩, 0, none, false⟩ :=
  ⟨(claim_C9_normalize 0 0 0 ⟨[]⟩ ⟨0, []⟩).1 rfl,
   (claim_C9_normalize 0 0 0 ⟨[]⟩ ⟨0, []⟩).2.2.2⟩

/-- `should_type` spelled out with the spec's numeric constants. -/
theorem should_type_iff (now : ℚ) (st : TypeState) (t : Transcript) :
    should_type now st t = true ↔
      (t.is_final = true ∨ (1 ≤ now - st.last_type_time ∧ (7 : ℚ)/10 < t.stability)) := by
  simp [should_type, TYPE_INTERVAL, TYPE_STABILITY_THRESHOLD, ge_iff_le]

/-! ### Claim C8 -/

/-- Counterexample to claim C8 as stated: a committed candidate whose diff
suffix is empty injects nothing, yet the source updates `last_speech_time` at
the top of the `should_type` branch, before the diff is computed, so the
timestamp changes from 5 to 2 although nothing was typed. -/
theorem claim_C8_counterexample :
    (handleResult 2 5 ⟨0, ['h', 'e', 'l', 'l', 'o']⟩ ⟨['h', 'e', 'l', 'l'], 9/10, false⟩).injected
        = none ∧
    ¬ ((handleResult 2 5 ⟨0, ['h', 'e', 'l', 'l', 'o']⟩
        ⟨['h', 'e', 'l', 'l'], 9/10, false⟩).lastSpeech = 5) := by
  decide

/-- Amended C8: the last-activity timestamp is updated exactly on the results
for which the commit decision holds (non-empty text and `should_type`), even
when the committed diff suffix is empty and nothing is injected; results that
are skipped or fail the commit test leave it unchanged. -/
theorem claim_C8_last_activity_update (now ls : ℚ) (st : TypeState) (t : Transcript) :
    (handleResult now ls st t).lastSpeech =
      if t.text ≠ [] ∧
          (t.is_final = true ∨ (1 ≤ now - st.last_type_time ∧ (7 : ℚ)/10 < t.stability))
      then now else ls := by
  by_cases htext : t.text = []
  · rw [handleResult_skip now ls st t htext, if_neg (by simp [htext])]
  · rcases hb : should_type now st t with _ | _
    · have hcond : ¬ (t.text ≠ [] ∧
          (t.is_final = true ∨ (1 ≤ now - st.last_type_time ∧ (7 : ℚ)/10 < t.stability))) :=
        fun hc => absurd ((should_type_iff now st t).mpr hc.2) (by simp [hb])
      rw [handleResult_nocommit now ls st t htext hb, if_neg hcond]
    · have hcond : t.text ≠ [] ∧
          (t.is_final = true ∨ (1 ≤ now - st.last_type_time ∧ (7 : ℚ)/10 < t.stability)) :=
        ⟨htext, (should_type_iff now st t).mp hb⟩
      rw [handleResult_commit now ls st t htext hb, if_pos hcond]
      split <;> rfl

/-! ### Claim C2 -/

/-- Counterexample to claim C2 as stated: committing `"hell"` against baseline
`"hello"` injects nothing, but `last_typed_text` is NOT updated to the shorter
text — the update at line 144 is guarded by `if text_to_type:`, so the
baseline stays `"hello"`. -/
theorem claim_C2_counterexample :
    (handleResult 2 5 ⟨0, ['h', 'e', 'l', 'l', 'o']⟩ ⟨['h', 'e', 'l', 'l'], 9/10, false⟩).injected
        = none ∧
    ¬ ((handleResult 2 5 ⟨0, ['h', 'e', 'l', 'l', 'o']⟩
        ⟨['h', 'e', 'l', 'l'], 9/10, false⟩).state.last_typed_text = ['h', 'e', 'l', 'l']) := by
  decide

/-- Amended C2: when committed candidate `B` is a strict case-insensitive
prefix of the previously committed `A` (and `B` is not final), nothing is
injected and the whole typing state is left unchanged, so the next diff is
computed against the stale longer `A`, not against `B`. -/
theorem claim_C2_no_retype_baseline_unchanged (now ls stab ttime : ℚ) (A B : List Char)
    (hci : lowerStr (pyStrip B) = (lowerStr A).take (pyStrip B).length)
    (hlt : (pyStrip B).length < A.length)
    (hne : pyStrip B ≠ [])
    (helapsed : 1 ≤ now - ttime)
    (hstab : (7 : ℚ)/10 < stab) :
    handleResult now ls ⟨ttime, A⟩ ⟨B, stab, false⟩ = ⟨⟨ttime, A⟩, now, none, true⟩ := by
  have htext : (Transcript.mk B stab false).text ≠ [] := ne_nil_of_pyStrip_ne_nil hne
  have hs : should_type now ⟨ttime, A⟩ ⟨B, stab, false⟩ = true :=
    (should_type_iff _ _ _).mpr (Or.inr ⟨helapsed, hstab⟩)
  rw [handleResult_commit now ls ⟨ttime, A⟩ ⟨B, stab, false⟩ htext hs]
  have hcpl : commonPrefixLen (pyStrip B) A = (pyStrip B).length :=
    commonPrefixLen_left (pyStrip B) A hci (le_of_lt hlt)
  have hnil : lstripL ((pyStrip B).drop
      (commonPrefixLen (pyStrip B) (TypeState.mk ttime A).last_typed_text)) = [] := by
    dsimp only
    rw [hcpl, List.drop_length]
    rfl
  rw [if_pos hnil]
  rfl

/-- Witness for the amended C2 at a concrete input. -/
theorem claim_C2_witness :
    handleResult 2 5 ⟨0, ['h', 'e', 'l', 'l', 'o']⟩ ⟨['h', 'e', 'l', 'l'], 9/10, false⟩ =
      ⟨⟨0, ['h', 'e', 'l', 'l', 'o']⟩, 2, none, true⟩ :=
  claim_C2_no_retype_baseline_unchanged 2 5 (9/10) 0
    ['h', 'e', 'l', 'l', 'o'] ['h', 'e', 'l', 'l']
    (by decide) (by decide) (by decide) (by norm_num) (by norm_num)

/-! ### Claim C6 -/

/-- Counterexample to claim C6 as stated: in the reachable state where the
shutdown flag has been set but the stream is not yet closed, the capture
callback still appends a frame to the buffer — `_fill_buffer` checks only
`_closed`, never the shutdown flag. -/
theorem claim_C6_counterexample :
    (sysRun sysInit [SysEvent.setExit]).exitSet = true ∧
    ¬ ((sysStep (sysRun sysInit [SysEvent.setExit]) (SysEvent.fill 7)).mic.buff =
        (sysRun sysInit [SysEvent.setExit]).mic.buff) := by
  decide

/-- Amended C6: once the result loop observes the shutdown flag at an
iteration boundary it stops before any further injection; but the capture
callback stops enqueuing only once the stream is closed, not when the flag is
set. -/
theorem claim_C6_shutdown_effects :
    (∀ (ls : LoopState) (p : SpeechResult) (rest : List (Bool × SpeechResult)),
      runResultsExit ls ((true, p) :: rest) = ls) ∧
    (∀ (s : SysState) (d : ℕ), s.mic.closed = true → sysStep s (SysEvent.fill d) = s) := by
  constructor
  · intro ls p rest
    rfl
  · intro s d h
    simp [sysStep, fill_buffer, h]

/-- Witness for the amended C6 at concrete inputs. -/
theorem claim_C6_witness :
    runResultsExit ⟨⟨0, []⟩, 0, []⟩ [(true, ⟨1, emptyTranscript⟩)] = ⟨⟨0, []⟩, 0, []⟩ ∧
    sysStep ⟨⟨true, [2]⟩, false⟩ (SysEvent.fill 3) = ⟨⟨true, [2]⟩, false⟩ :=
  ⟨claim_C6_shutdown_effects.1 ⟨⟨0, []⟩, 0, []⟩ ⟨1, emptyTranscript⟩ [],
   claim_C6_shutdown_effects.2 ⟨⟨true, [2]⟩, false⟩ 3 rfl⟩

/-! ### Claim C7 -/

/-- Claim C7: with no commits (the last-activity timestamp stays at session
start), the monitor's poll fires for the first time at poll index 11, i.e. at
`start + 3.3`, which is within `SILENCE_THRESHOLD + 0.3` of session start and
strictly after the silence threshold is exceeded; and each poll compares
`now - last_speech_time` against 3.0, firing exactly when the difference
exceeds it. -/
theorem claim_C7_silence_shutdown (start : ℚ) :
    (∀ t : ℚ, t ≤ start + SILENCE_THRESHOLD → monitorCheck t start = false) ∧
    (∀ k : ℕ, k ≤ 10 → monitorCheck (pollTime start k) start = false) ∧
    monitorCheck (pollTime start 11) start = true ∧
    start + SILENCE_THRESHOLD < pollTime start 11 ∧
    pollTime start 11 ≤ start + SILENCE_THRESHOLD + 3/10 ∧
    (∀ t : ℚ, monitorCheck t start = true ↔ SILENCE_THRESHOLD < t - start) := by
  refine ⟨?_, ?_, ?_, ?_, ?_, ?_⟩
  · intro t ht
    simp only [SILENCE_THRESHOLD] at ht
    simp only [monitorCheck, SILENCE_THRESHOLD, gt_iff_lt, decide_eq_false_iff_not, not_lt]
    linarith
  · intro k hk
    have hk2 : (k : ℚ) ≤ 10 := by exact_mod_cast hk
    simp only [monitorCheck, pollTime, SILENCE_THRESHOLD, gt_iff_lt,
      decide_eq_false_iff_not, not_lt]
    nlinarith
  · simp only [monitorCheck, pollTime, SILENCE_THRESHOLD, gt_iff_lt, decide_eq_true_eq]
    push_cast
    linarith
  · simp only [pollTime, SILENCE_THRESHOLD]
    push_cast
    linarith
  · simp only [pollTime, SILENCE_THRESHOLD]
    push_cast
    linarith
  · intro t
    simp [monitorCheck]

/-- Witness for C7: at session start 0, poll 10 (t = 3.0) does not fire and
poll 11 (t = 3.3) fires. -/
theorem claim_C7_witness :
    monitorCheck (pollTime 0 10) 0 = false ∧ monitorCheck (pollTime 0 11) 0 = true :=
  ⟨(claim_C7_silence_shutdown 0).2.1 10 (by norm_num),
   (claim_C7_silence_shutdown 0).2.2.1⟩

/-! ### Claim C5 -/

/-- The input sequence of claim C5: `("hell", 0.9, non-final)` at t = 0,
`("hello world", 0.9, non-final)` at t = 1.1, `("hello world.", 0.95, final)`
at t = 1.2. -/
def c5Results : List SpeechResult :=
  [⟨0, ⟨['h', 'e', 'l', 'l'], 9/10, false⟩⟩,
   ⟨11/10, ⟨['h', 'e', 'l', 'l', 'o', ' ', 'w', 'o', 'r', 'l', 'd'], 9/10, false⟩⟩,
   ⟨12/10, ⟨['h', 'e', 'l', 'l', 'o', ' ', 'w', 'o', 'r', 'l', 'd', '.'], 95/100, true⟩⟩]

/-- Counterexample to claim C5 as stated: from a fresh session state created
at t = 0, the first candidate (also at t = 0) has zero elapsed time, fails the
`TYPE_INTERVAL` test and is not final, so `"hell "` is never injected; the run
injects only `"hello world "` and `". "`. -/
theorem claim_C5_counterexample :
    ¬ ((runResults ⟨⟨0, []⟩, 0, []⟩ c5Results).injections =
        [['h', 'e', 'l', 'l', ' '],
         ['o', ' ', 'w', 'o', 'r', 'l', 'd', ' '],
         ['.', ' ']]) ∧
    (runResults ⟨⟨0, []⟩, 0, []⟩ c5Results).injections =
      [['h', 'e', 'l', 'l', 'o', ' ', 'w', 'o', 'r', 'l', 'd', ' '], ['.', ' ']] := by
  decide

/-- Amended C5: for the same input sequence, if the session state was created
at least `TYPE_INTERVAL` before the first candidate (here at t = -1), the
engine injects exactly `"hell "`, `"o world "`, `". "` in that order. -/
theorem claim_C5_example_run :
    (runResults ⟨⟨-1, []⟩, -1, []⟩ c5Results).injections =
      [['h', 'e', 'l', 'l', ' '],
       ['o', ' ', 'w', 'o', 'r', 'l', 'd', ' '],
       ['.', ' ']] := by
  decide

/-! ### Claim C3 -/

/-- A committed final hypothesis processed against an empty baseline: the
whole stripped text is injected and the state is reset. -/
theorem handleResult_final_fresh (now ls ttime stab : ℚ) (text : List Char)
    (hne : pyStrip text ≠ []) :
    handleResult now ls ⟨ttime, []⟩ ⟨text, stab, true⟩ =
      ⟨freshTypeState now, now, some (pyStrip text ++ [' ']), true⟩ := by
  have htext : (Transcript.mk text stab true).text ≠ [] := ne_nil_of_pyStrip_ne_nil hne
  have hs : should_type now ⟨ttime, []⟩ ⟨text, stab, true⟩ = true := by
    simp [should_type]
  rw [handleResult_commit now ls ⟨ttime, []⟩ ⟨text, stab, true⟩ htext hs]
  have hnil : ¬ (lstripL ((pyStrip text).drop
      (commonPrefixLen (pyStrip text) (TypeState.mk ttime []).last_typed_text)) = []) := by
    dsimp only
    rw [commonPrefixLen_nil_right, List.drop_zero, lstripL_pyStrip]
    exact hne
  rw [if_neg hnil]
  dsimp only
  rw [commonPrefixLen_nil_right, List.drop_zero, lstripL_pyStrip]
  rfl

/-- Counterexample to claim C3 as stated: two consecutive final hypotheses
with the identical text `"hi"` re-emit: the second one injects `"hi "` again,
rather than nothing. -/
theorem claim_C3_counterexample :
    ¬ ((runResults ⟨⟨0, []⟩, 0, []⟩
          [⟨1, ⟨['h', 'i'], 0, true⟩⟩, ⟨2, ⟨['h', 'i'], 0, true⟩⟩]).injections =
        [['h', 'i', ' ']]) ∧
    (runResults ⟨⟨0, []⟩, 0, []⟩
        [⟨1, ⟨['h', 'i'], 0, true⟩⟩, ⟨2, ⟨['h', 'i'], 0, true⟩⟩]).injections =
      [['h', 'i', ' '], ['h', 'i', ' ']] := by
  decide

/-- Amended C3: processing the second of two consecutive identical final
hypotheses re-injects the full stripped text followed by a space, because the
first final's commit is followed by the reset that empties the baseline; the
diff-before-reset ordering only prevents double emission within a single
result, not across the two finals. -/
theorem claim_C3_identical_finals_reemit (text : List Char) (st0 ls0 t1 t2 stab1 stab2 : ℚ)
    (hne : pyStrip text ≠ []) :
    (runResults ⟨⟨st0, []⟩, ls0, []⟩
        [⟨t1, ⟨text, stab1, true⟩⟩, ⟨t2, ⟨text, stab2, true⟩⟩]).injections =
      [pyStrip text ++ [' '], pyStrip text ++ [' ']] := by
  have h1 := handleResult_final_fresh t1 ls0 st0 stab1 text hne
  have h2 := handleResult_final_fresh t2 t1 t1 stab2 text hne
  simp only [runResults, h1, freshTypeState, h2, Option.toList_some, List.nil_append]
  rfl

/-- Witness for the amended C3 at a concrete input. -/
theorem claim_C3_witness :
    (runResults ⟨⟨0, []⟩, 0, []⟩
        [⟨1, ⟨['h', 'i'], 0, true⟩⟩, ⟨2, ⟨['h', 'i'], 0, true⟩⟩]).injections =
      [pyStrip ['h', 'i'] ++ [' '], pyStrip ['h', 'i'] ++ [' ']] :=
  claim_C3_identical_finals_reemit ['h', 'i'] 0 0 1 2 0 0 (by decide)

/-! ### Claim C1 -/

/-- A committed non-final candidate that properly extends the current baseline
(case-insensitively) injects exactly the newly appeared suffix plus a space,
and the baseline becomes the stripped candidate. -/
theorem handleResult_extend (now ls : ℚ) (st : TypeState) (t : Transcript)
    (hci : ciExtends st.last_typed_text (pyStrip t.text))
    (hfin : t.is_final = false)
    (helapsed : 1 ≤ now - st.last_type_time)
    (hstab : (7 : ℚ)/10 < t.stability) :
    handleResult now ls st t =
      ⟨⟨now, pyStrip t.text⟩, now,
        some (lstripL ((pyStrip t.text).drop st.last_typed_text.length) ++ [' ']), true⟩ := by
  obtain ⟨hpre, hlen⟩ := hci
  have hne : pyStrip t.text ≠ [] := by
    intro h0
    rw [h0] at hlen
    simp at hlen
  have htext : t.text ≠ [] := ne_nil_of_pyStrip_ne_nil hne
  have hs : should_type now st t = true :=
    (should_type_iff _ _ _).mpr (Or.inr ⟨helapsed, hstab⟩)
  rw [handleResult_commit now ls st t htext hs]
  have hcpl : commonPrefixLen (pyStrip t.text) st.last_typed_text =
      st.last_typed_text.length :=
    commonPrefixLen_right st.last_typed_text (pyStrip t.text) hpre (le_of_lt hlen)
  have hdne : (pyStrip t.text).drop st.last_typed_text.length ≠ [] := by
    intro h0
    rw [List.drop_eq_nil_iff] at h0
    omega
  have hsne : lstripL ((pyStrip t.text).drop st.last_typed_text.length) ≠ [] :=
    lstripL_drop_ne_nil (rstripL_pyStrip t.text) hdne
  rw [hcpl, if_neg hsne, hfin]
  rfl

/-- Invariant of the typing loop over a chain of case-insensitive
prefix-extensions of committed candidates: each step appends exactly the newly
appeared suffix (plus one space) to the injections, and the baseline ends at
the last stripped candidate. -/
theorem runResults_chain :
    ∀ (results : List SpeechResult) (st : TypeState) (ls0 : ℚ) (acc : List (List Char)),
    List.Chain' ciExtends
      (st.last_typed_text :: results.map fun r => pyStrip r.transcript.text) →
    (∀ r ∈ results, r.transcript.is_final = false) →
    (∀ r ∈ results, (7 : ℚ)/10 < r.transcript.stability) →
    List.Chain' (fun a b => a + 1 ≤ b)
      (st.last_type_time :: results.map SpeechResult.timestamp) →
    (runResults ⟨st, ls0, acc⟩ results).injections =
        acc ++ (newSuffixes st.last_typed_text
          (results.map fun r => pyStrip r.transcript.text)).map (fun s => s ++ [' ']) ∧
    (runResults ⟨st, ls0, acc⟩ results).state.last_typed_text =
        (results.map fun r => pyStrip r.transcript.text).getLastD st.last_typed_text := by
  intro results
  induction results with
  | nil =>
    intro st ls0 acc _ _ _ _
    simp [runResults, newSuffixes]
  | cons r rest ih =>
    intro st ls0 acc hchain hfin hstab htime
    simp only [List.map_cons] at hchain htime ⊢
    rw [List.chain'_cons] at hchain htime
    have hstep := handleResult_extend r.timestamp ls0 st r.transcript hchain.1
      (hfin r (by simp)) (by linarith [htime.1]) (hstab r (by simp))
    have hrec := ih ⟨r.timestamp, pyStrip r.transcript.text⟩ r.timestamp
      (acc ++ [lstripL ((pyStrip r.transcript.text).drop st.last_typed_text.length) ++ [' ']])
      hchain.2 (fun x hx => hfin x (by simp [hx]))
      (fun x hx => hstab x (by simp [hx])) htime.2
    simp only [runResults, hstep, Option.toList_some]
    constructor
    · rw [hrec.1]
      simp [newSuffixes, List.append_assoc]
    · rw [List.getLastD_cons]
      exact hrec.2

theorem lowerStr_append (a b : List Char) : lowerStr (a ++ b) = lowerStr a ++ lowerStr b :=
  List.map_append pyLower a b

theorem stripAllWS_append (a b : List Char) :
    stripAllWS (a ++ b) = stripAllWS a ++ stripAllWS b :=
  List.filter_append a b

theorem stripAllWS_lowerStr_allspace {w : List Char}
    (hw : ∀ c ∈ w, pyIsSpace c = true) : stripAllWS (lowerStr w) = [] := by
  apply List.filter_eq_nil_iff.mpr
  intro c hc
  rw [lowerStr, List.mem_map] at hc
  obtain ⟨a, ha, rfl⟩ := hc
  rw [pyLower_space (hw a ha)]
  simp [hw a ha]

theorem stripAllWS_lowerStr_lstripL (d : List Char) :
    stripAllWS (lowerStr (lstripL d)) = stripAllWS (lowerStr d) := by
  conv_rhs => rw [← List.takeWhile_append_dropWhile pyIsSpace d]
  rw [lowerStr_append, stripAllWS_append,
    stripAllWS_lowerStr_allspace (fun c hc => List.mem_takeWhile_imp hc), List.nil_append]
  rfl

theorem ciExtends_lower_decomp {base t : List Char} (h : ciExtends base t) :
    lowerStr t = lowerStr base ++ lowerStr (t.drop base.length) := by
  conv_lhs => rw [← List.take_append_drop base.length t]
  rw [lowerStr_append]
  have htake : lowerStr (t.take base.length) = (lowerStr t).take base.length :=
    List.map_take pyLower t base.length
  rw [htake, ← h.1]

/-- Up to lowercasing and whitespace, the last candidate of a chain of
prefix-extensions is the concatenation of the base and all newly appeared
suffixes. -/
theorem stripAllWS_getLastD :
    ∀ (ts : List (List Char)) (base : List Char), List.Chain' ciExtends (base :: ts) →
    stripAllWS (lowerStr (ts.getLastD base)) =
      stripAllWS (lowerStr base) ++
        ((newSuffixes base ts).map fun s => stripAllWS (lowerStr s)).flatten := by
  intro ts
  induction ts with
  | nil =>
    intro base _
    simp [newSuffixes]
  | cons t ts ih =>
    intro base hchain
    rw [List.chain'_cons] at hchain
    rw [List.getLastD_cons, ih t hchain.2]
    simp only [newSuffixes, List.map_cons, List.flatten_cons]
    rw [stripAllWS_lowerStr_lstripL, ciExtends_lower_decomp hchain.1,
      stripAllWS_append, List.append_assoc]

/-- Lowercasing then erasing whitespace turns the concatenation of
space-terminated suffixes into the concatenation of the processed suffixes. -/
theorem stripAllWS_lowerStr_flatten :
    ∀ l : List (List Char),
      stripAllWS (lowerStr ((l.map fun s => s ++ [' ']).flatten)) =
        (l.map fun s => stripAllWS (lowerStr s)).flatten := by
  intro l
  induction l with
  | nil => rfl
  | cons s ss ih =>
    simp only [List.map_cons, List.flatten_cons]
    rw [lowerStr_append, stripAllWS_append, ih, lowerStr_append, stripAllWS_append]
    have hsp : stripAllWS (lowerStr [' ']) = [] := by
      apply stripAllWS_lowerStr_allspace
      intro c hc
      simp at hc
      subst hc
      rfl
    rw [hsp, List.append_nil]

/-- Concatenating suffixes-each-followed-by-a-space is intercalating single
spaces between them, with one trailing space. -/
theorem flatten_map_append_space :
    ∀ l : List (List Char), l ≠ [] →
      (l.map fun s => s ++ [' ']).flatten = List.intercalate [' '] l ++ [' ']
  | [], h => absurd rfl h
  | [x], _ => by simp [List.intercalate]
  | x :: y :: ys, _ => by
    have ih := flatten_map_append_space (y :: ys) (by simp)
    simp only [List.map_cons, List.flatten_cons] at ih ⊢
    rw [List.intercalate, List.intersperse_cons_cons, List.flatten_cons, List.flatten_cons]
    rw [List.intercalate] at ih
    rw [ih]
    simp [List.append_assoc]

/-- Claim C1: over one utterance, for any sequence of committed candidates in
which each stripped candidate is a case-insensitive strict prefix-extension of
the previous one, the engine injects exactly the newly appeared suffix (plus
one separating space) each time: the injected strings are precisely the
`newSuffixes` of the candidate sequence, their concatenation is those suffixes
intercalated with single spaces (plus a trailing space) — each suffix in the
casing in which it first appeared — and, erasing whitespace and case, that
concatenation equals the final candidate text, so no character of a
previously injected suffix is ever injected again.  The commit conditions
(non-final, stability above threshold, at least `TYPE_INTERVAL` between
consecutive timestamps) are the hypotheses under which every candidate is
committed. -/
theorem claim_C1_incremental_injection (results : List SpeechResult) (t0 ls0 : ℚ)
    (hnil : results ≠ [])
    (hchain : List.Chain' ciExtends
      ([] :: results.map fun r => pyStrip r.transcript.text))
    (hfin : ∀ r ∈ results, r.transcript.is_final = false)
    (hstab : ∀ r ∈ results, (7 : ℚ)/10 < r.transcript.stability)
    (htime : List.Chain' (fun a b => a + 1 ≤ b)
      (t0 :: results.map SpeechResult.timestamp)) :
    (runResults ⟨⟨t0, []⟩, ls0, []⟩ results).injections =
        (newSuffixes [] (results.map fun r => pyStrip r.transcript.text)).map
          (fun s => s ++ [' ']) ∧
    (runResults ⟨⟨t0, []⟩, ls0, []⟩ results).injections.flatten =
        List.intercalate [' ']
          (newSuffixes [] (results.map fun r => pyStrip r.transcript.text)) ++ [' '] ∧
    stripAllWS (lowerStr ((runResults ⟨⟨t0, []⟩, ls0, []⟩ results).injections.flatten)) =
        stripAllWS (lowerStr
          ((results.map fun r => pyStrip r.transcript.text).getLastD [])) ∧
    (runResults ⟨⟨t0, []⟩, ls0, []⟩ results).state.last_typed_text =
        (results.map fun r => pyStrip r.transcript.text).getLastD [] := by
  have hrun := runResults_chain results ⟨t0, []⟩ ls0 [] hchain hfin hstab htime
  have hsne : newSuffixes [] (results.map fun r => pyStrip r.transcript.text) ≠ [] := by
    cases results with
    | nil => exact absurd rfl hnil
    | cons r rest => simp [newSuffixes]
  refine ⟨hrun.1.trans (List.nil_append _), ?_, ?_, hrun.2⟩
  · rw [hrun.1, List.nil_append]
    exact flatten_map_append_space _ hsne
  · rw [hrun.1, List.nil_append, stripAllWS_lowerStr_flatten,
      stripAllWS_getLastD (results.map fun r => pyStrip r.transcript.text) [] hchain]
    rfl

/-- A concrete committed prefix-extension chain (with surrounding whitespace
and a case change) used to witness C1. -/
def c1Results : List SpeechResult :=
  [⟨1, ⟨[' ', 'h', 'e', 'l', 'l'], 9/10, false⟩⟩,
   ⟨21/10, ⟨['H', 'e', 'l', 'l', 'o', ' ', 'w', 'o', 'r', 'l', 'd'], 8/10, false⟩⟩]

/-- Witness for C1: on the chain `" hell"` then `"Hello world"` the injections
are exactly `"hell "` and `"o world "`. -/
theorem claim_C1_witness :
    (runResults ⟨⟨0, []⟩, 0, []⟩ c1Results).injections =
      [['h', 'e', 'l', 'l', ' '], ['o', ' ', 'w', 'o', 'r', 'l', 'd', ' ']] := by
  have hchain : List.Chain' ciExtends ([] :: c1Results.map fun r => pyStrip r.transcript.text) := by
    simp only [c1Results, List.map_cons, List.map_nil]
    rw [List.chain'_cons, List.chain'_cons]
    exact ⟨by decide, by decide, by simp⟩
  have htime : List.Chain' (fun a b : ℚ => a + 1 ≤ b)
      (0 :: c1Results.map SpeechResult.timestamp) := by
    simp only [c1Results, List.map_cons, List.map_nil]
    rw [List.chain'_cons, List.chain'_cons]
    exact ⟨by decide, by decide, by simp⟩
  have h := (claim_C1_incremental_injection c1Results 0 0 (by decide) hchain
    (by decide) (by decide) htime).1
  rw [h]
  decide

end VoiceToCursor
